import Mathlib

/-!
Shallow embedding of `IntricatePointers.hpp` (single-header C++20 smart
pointers: `Scope`, `Ref`, `WeakRef`, `UnsafeRef` and the cast family).

Modelling conventions:
* A raw pointer is a `Nat`; `0` is `nullptr`.
* A control block (`_AtomicRefCount`) lives on an explicit heap, keyed by a
  `Nat` id; `m_RefCount` in a handle is `Option Nat`.
* The type-erased deleter `void (*)(void*)` is identified by a `Nat` tag (the
  concrete type whose `_DefaultDelete<_Ty2>` instantiation it is);
  `m_Deleter` is `Option Nat`.  Invoking the deleter appends
  `(tag, address)` to the heap's `deletions` log.
* Counters are `uint32_t`: values are `Nat`s kept below `2 ^ 32`, and
  `fetch_add`/`fetch_sub` wrap modulo `2 ^ 32` exactly as the machine does.
* Deallocating a control block (`delete m_RefCount`) removes it from the
  heap's live list and appends its id to the `freed` log.
* Sequential semantics: the atomic operations are modelled by their
  functional effect; memory-ordering facts are outside the embedding.
-/

/-- `uint32_t` modulus. -/
def U32 : Nat := 2 ^ 32

/-- `_AtomicRefCount`: `m_Strongs` and `m_Weaks`, both `std::atomic_uint`,
initialised to 1 and 0 by the member initialisers. -/
structure AtomicRefCount where
  strongs : Nat
  weaks : Nat
deriving Repr, DecidableEq

/-- A freshly `new`-ed `_AtomicRefCount()`: strongs = 1, weaks = 0. -/
def AtomicRefCount.init : AtomicRefCount := ⟨1, 0⟩

/-- `_AtomicRefCount::IncRef`: `m_Strongs.fetch_add(1) + 1` (uint32 wrap);
returns the new value together with the updated block. -/
def AtomicRefCount.IncRef (c : AtomicRefCount) : Nat × AtomicRefCount :=
  let n := (c.strongs + 1) % U32
  (n, { c with strongs := n })

/-- `_AtomicRefCount::DecRef`: `m_Strongs.fetch_sub(1) - 1` (uint32 wrap). -/
def AtomicRefCount.DecRef (c : AtomicRefCount) : Nat × AtomicRefCount :=
  let n := (c.strongs + (U32 - 1)) % U32
  (n, { c with strongs := n })

/-- `_AtomicRefCount::IncWeakRef`: `m_Weaks.fetch_add(1) + 1` (uint32 wrap). -/
def AtomicRefCount.IncWeakRef (c : AtomicRefCount) : Nat × AtomicRefCount :=
  let n := (c.weaks + 1) % U32
  (n, { c with weaks := n })

/-- `_AtomicRefCount::DecWeakRef`: `m_Weaks.fetch_sub(1) - 1` (uint32 wrap). -/
def AtomicRefCount.DecWeakRef (c : AtomicRefCount) : Nat × AtomicRefCount :=
  let n := (c.weaks + (U32 - 1)) % U32
  (n, { c with weaks := n })

/-- `_AtomicRefCount::GetStrongs`. -/
def AtomicRefCount.GetStrongs (c : AtomicRefCount) : Nat := c.strongs

/-- `_AtomicRefCount::GetWeaks`. -/
def AtomicRefCount.GetWeaks (c : AtomicRefCount) : Nat := c.weaks

/-- The heap: live control blocks (id ↦ block), an allocation cursor, the log
of deallocated block ids, and the log of deleter invocations
`(deleter tag, resource address)`. -/
structure Heap where
  blocks : List (Nat × AtomicRefCount)
  nextId : Nat
  freed : List Nat
  deletions : List (Nat × Nat)
deriving Repr, DecidableEq

def Heap.empty : Heap := ⟨[], 0, [], []⟩

/-- First live block with the given id (a pointer dereference). -/
def Heap.findBlock (h : Heap) (b : Nat) : Option AtomicRefCount :=
  go h.blocks
where
  go : List (Nat × AtomicRefCount) → Option AtomicRefCount
    | [] => none
    | p :: rest => if p.1 = b then some p.2 else go rest

/-- `new _AtomicRefCount()`: returns the fresh id and the grown heap. -/
def Heap.alloc (h : Heap) : Nat × Heap :=
  (h.nextId, { h with blocks := (h.nextId, AtomicRefCount.init) :: h.blocks,
                      nextId := h.nextId + 1 })

/-- In-place mutation of the block at id `b`. -/
def Heap.updBlock (h : Heap) (b : Nat) (f : AtomicRefCount → AtomicRefCount) : Heap :=
  { h with blocks := h.blocks.map (fun p => if p.1 = b then (p.1, f p.2) else p) }

/-- `delete m_RefCount`: drop the block and log the deallocation. -/
def Heap.free (h : Heap) (b : Nat) : Heap :=
  { h with blocks := h.blocks.filter (fun p => ¬ p.1 = b),
           freed := h.freed ++ [b] }

/-- Invoke the type-erased deleter `d` on address `p` (`m_Deleter((void*)m_Ptr)`). -/
def Heap.runDeleter (h : Heap) (d p : Nat) : Heap :=
  { h with deletions := h.deletions ++ [(d, p)] }

/-- Well-formed heap: every live block id was really allocated (is below the
allocation cursor) and both counters are `uint32_t` values. -/
def Heap.wf (h : Heap) : Prop :=
  ∀ p ∈ h.blocks, p.1 < h.nextId ∧ p.2.strongs < U32 ∧ p.2.weaks < U32

instance (h : Heap) : Decidable h.wf := by
  unfold Heap.wf; infer_instance

/-- The fields shared by `Ref`, `WeakRef` and `UnsafeRef` (`_RefBase`):
`m_Ptr`, `m_RefCount`, `m_Deleter`. -/
structure Handle where
  ptr : Nat
  refCount : Option Nat
  deleter : Option Nat
deriving Repr, DecidableEq

/-- The all-null handle (`_RefBase(nullptr)` / default construction). -/
def Handle.null : Handle := ⟨0, none, none⟩

namespace Handle

/-- `_RefBase::_Raw`. -/
def _Raw (hd : Handle) : Nat := hd.ptr

/-- `_RefBase::_RefCount`: `m_RefCount ? m_RefCount->GetStrongs() : 0`. -/
def _RefCount (hd : Handle) (h : Heap) : Nat :=
  match hd.refCount with
  | none => 0
  | some b =>
    match h.findBlock b with
    | some c => c.GetStrongs
    | none => 0

/-- `_RefBase::_WeakRefCount`: `m_RefCount ? m_RefCount->GetWeaks() : 0`. -/
def _WeakRefCount (hd : Handle) (h : Heap) : Nat :=
  match hd.refCount with
  | none => 0
  | some b =>
    match h.findBlock b with
    | some c => c.GetWeaks
    | none => 0

/-- `_RefBase::_IncRef`: `if (m_RefCount) m_RefCount->IncRef()`.
A dangling block id (use-after-free, undefined in C++) is modelled as inert. -/
def _IncRef (hd : Handle) (h : Heap) : Heap :=
  match hd.refCount with
  | none => h
  | some b =>
    match h.findBlock b with
    | none => h
    | some c => h.updBlock b (fun x => { x with strongs := (c.IncRef).1 })

/-- `_RefBase::_IncWeakRef`: `if (m_RefCount) m_RefCount->IncWeakRef()`. -/
def _IncWeakRef (hd : Handle) (h : Heap) : Heap :=
  match hd.refCount with
  | none => h
  | some b =>
    match h.findBlock b with
    | none => h
    | some c => h.updBlock b (fun x => { x with weaks := (c.IncWeakRef).1 })

/-- `_RefBase::_DecRef`:
```
if (m_RefCount && (m_RefCount->DecRef() == 0)) {
    if (m_Ptr) { if (m_Deleter) m_Deleter((void*)m_Ptr); m_Ptr = nullptr; }
    if (_WeakRefCount() == 0) { delete m_RefCount; m_RefCount = nullptr; }
}
```
Returns the mutated handle and heap. -/
def _DecRef (hd : Handle) (h : Heap) : Handle × Heap :=
  match hd.refCount with
  | none => (hd, h)
  | some b =>
    match h.findBlock b with
    | none => (hd, h)
    | some c =>
      let n := (c.DecRef).1
      let h1 := h.updBlock b (fun x => { x with strongs := n })
      if n = 0 then
        let hd2 : Handle :=
          if hd.ptr = 0 then hd else { hd with ptr := 0 }
        let h2 :=
          if hd.ptr = 0 then h1
          else
            match hd.deleter with
            | some d => h1.runDeleter d hd.ptr
            | none => h1
        if hd2._WeakRefCount h2 = 0 then
          ({ hd2 with refCount := none }, h2.free b)
        else (hd2, h2)
      else (hd, h1)

/-- `_RefBase::_DecWeakRef`:
```
if (m_RefCount && (m_RefCount->DecWeakRef() == 0) && (_RefCount() == 0)) {
    delete m_RefCount;
    m_RefCount = nullptr;
}
```
The weak decrement happens whenever `m_RefCount` is non-null (short-circuit
order); the strong count is read after it. -/
def _DecWeakRef (hd : Handle) (h : Heap) : Handle × Heap :=
  match hd.refCount with
  | none => (hd, h)
  | some b =>
    match h.findBlock b with
    | none => (hd, h)
    | some c =>
      let n := (c.DecWeakRef).1
      let h1 := h.updBlock b (fun x => { x with weaks := n })
      if n = 0 ∧ hd._RefCount h1 = 0 then
        ({ hd with refCount := none }, h1.free b)
      else (hd, h1)

/-- `_RefBase::_ConstructFromRaw<_Ty2>(ptr)`:
```
m_Ptr = static_cast<_Ty*>(ptr);
m_RefCount = m_Ptr ? new _AtomicRefCount() : nullptr;
m_Deleter = m_Ptr ? &_DefaultDelete<_Ty2> : nullptr;
```
`d` is the tag of `_DefaultDelete<_Ty2>` (the concrete type's deleter). -/
def _ConstructFromRaw (p d : Nat) (h : Heap) : Handle × Heap :=
  if p = 0 then (⟨0, none, none⟩, h)
  else
    let (b, h1) := h.alloc
    (⟨p, some b, some d⟩, h1)

/-- `_RefBase::_CopyConstructFrom(ref)`: copy the three fields, `_IncRef()`. -/
def _CopyConstructFrom (ref : Handle) (h : Heap) : Handle × Heap :=
  let hd : Handle := ⟨ref.ptr, ref.refCount, ref.deleter⟩
  (hd, hd._IncRef h)

/-- `_RefBase::_AliasConstructFrom(ptr, ref)`: install `p`, share `ref`'s
control block and deleter, `_IncRef()` guarded on a non-null block. -/
def _AliasConstructFrom (p : Nat) (ref : Handle) (h : Heap) : Handle × Heap :=
  let hd : Handle := ⟨p, ref.refCount, ref.deleter⟩
  match ref.refCount with
  | none => (hd, h)
  | some _ => (hd, hd._IncRef h)

/-- `_RefBase::_MoveAliasConstructFrom(ptr, ref)`: install `p`, steal `ref`'s
control block and deleter, null out `ref`; no count change.
Returns (new handle, moved-from source). -/
def _MoveAliasConstructFrom (p : Nat) (ref : Handle) : Handle × Handle :=
  (⟨p, ref.refCount, ref.deleter⟩, ⟨0, none, none⟩)

/-- `_RefBase::_MoveConstructFrom(ptr)`: steal all fields, null out the
source; no count change.  Returns (new handle, moved-from source). -/
def _MoveConstructFrom (ref : Handle) : Handle × Handle :=
  (⟨ref.ptr, ref.refCount, ref.deleter⟩, ⟨0, none, none⟩)

/-- `_RefBase::_WeaklyConstructFrom(ptr)`: copy the fields, `_IncWeakRef()`. -/
def _WeaklyConstructFrom (ref : Handle) (h : Heap) : Handle × Heap :=
  let hd : Handle := ⟨ref.ptr, ref.refCount, ref.deleter⟩
  (hd, hd._IncWeakRef h)

/-- `_RefBase::_ConstructFromWeak(weak)`: if `weak._RefCount() == 0` the
result is the null handle and nothing changes; otherwise copy the fields and
`_IncRef()`. -/
def _ConstructFromWeak (weak : Handle) (h : Heap) : Handle × Heap :=
  if weak._RefCount h = 0 then (⟨0, none, none⟩, h)
  else
    let hd : Handle := ⟨weak.ptr, weak.refCount, weak.deleter⟩
    (hd, hd._IncRef h)

/-- `_RefBase::_UnsafelyConstructFrom(ptr)`: copy the three fields; no count
change at all. -/
def _UnsafelyConstructFrom (ref : Handle) (h : Heap) : Handle × Heap :=
  (⟨ref.ptr, ref.refCount, ref.deleter⟩, h)

/-- `_RefBase::_Swap`: exchange all three fields. -/
def _Swap (a b : Handle) : Handle × Handle := (b, a)

end Handle


/-! Public `Ref` surface (built on `_RefBase`). -/

namespace RefAPI

/-- `Ref::Ref(_Ty2* ptr)` (also the `CreateRef` result): `_ConstructFromRaw`. -/
def construct (p d : Nat) (h : Heap) : Handle × Heap := Handle._ConstructFromRaw p d h

/-- `Ref::~Ref`: `_DecRef()`. -/
def destruct (hd : Handle) (h : Heap) : Handle × Heap := Handle._DecRef hd h

/-- `Ref::Release`:
```
_Ty* res = std::exchange(this->m_Ptr, nullptr);
Ref<_Ty>(nullptr).Swap(*this);
return res;
```
After the exchange, the null temporary swaps its fields with `*this`; at the
end of the full expression the temporary — now holding the old `m_RefCount`
and `m_Deleter` but a null `m_Ptr` — is destroyed, running `_DecRef()`.
Returns (released raw pointer, `*this` afterwards, heap afterwards). -/
def Release (hd : Handle) (h : Heap) : Nat × Handle × Heap :=
  let res := hd.ptr
  let afterExchange : Handle := { hd with ptr := 0 }
  let (temp, thisAfter) := Handle._Swap Handle.null afterExchange
  let (_, h1) := Handle._DecRef temp h
  (res, thisAfter, h1)

/-- `Ref::Reset(_Ty* newPtr)`: `Ref<_Ty>(newPtr).Swap(*this)`; the temporary
leaves holding the old fields and its destructor runs `_DecRef()` on them.
Returns (`*this` afterwards, heap afterwards). -/
def Reset (hd : Handle) (p d : Nat) (h : Heap) : Handle × Heap :=
  let (fresh, h1) := Handle._ConstructFromRaw p d h
  let (temp, thisAfter) := Handle._Swap fresh hd
  let (_, h2) := Handle._DecRef temp h1
  (thisAfter, h2)

/-- `Ref::RefCount`. -/
def RefCount (hd : Handle) (h : Heap) : Nat := hd._RefCount h

/-- `Ref::Unique`: `RefCount() == 1`. -/
def Unique (hd : Handle) (h : Heap) : Bool := RefCount hd h = 1

/-- `Ref::Raw`. -/
def Raw (hd : Handle) : Nat := hd._Raw

/-- `Ref::Valid`: `Raw() != nullptr`. -/
def Valid (hd : Handle) : Bool := ¬ Raw hd = 0

end RefAPI

/-! Public `WeakRef` surface. -/

namespace WeakRefAPI

/-- `WeakRef::WeakRef(const Ref&)` / `(const WeakRef&)`: `_WeaklyConstructFrom`. -/
def construct (src : Handle) (h : Heap) : Handle × Heap := Handle._WeaklyConstructFrom src h

/-- `WeakRef::~WeakRef`: `_DecWeakRef()`. -/
def destruct (hd : Handle) (h : Heap) : Handle × Heap := Handle._DecWeakRef hd h

/-- `WeakRef::RefCount`. -/
def RefCount (hd : Handle) (h : Heap) : Nat := hd._RefCount h

/-- `WeakRef::Expired`: `RefCount() == 0`. -/
def Expired (hd : Handle) (h : Heap) : Bool := RefCount hd h = 0

/-- `WeakRef::Lock`:
```
if (Expired()) return nullptr;
Ref<_Ty> res;
res._ConstructFromWeak(*this);
return res;
```
Returns (the produced `Ref`, heap afterwards). -/
def Lock (hd : Handle) (h : Heap) : Handle × Heap :=
  if Expired hd h then (⟨0, none, none⟩, h)
  else Handle._ConstructFromWeak hd h

/-- `WeakRef::Reset`: `WeakRef<_Ty>(nullptr).Swap(*this)`; the temporary
leaves with the old fields and its destructor runs `_DecWeakRef()`. -/
def Reset (hd : Handle) (h : Heap) : Handle × Heap :=
  let (temp, thisAfter) := Handle._Swap Handle.null hd
  let (_, h1) := Handle._DecWeakRef temp h
  (thisAfter, h1)

end WeakRefAPI

/-! Public `UnsafeRef` surface.  Its constructor from a `Ref` runs
`_UnsafelyConstructFrom` and its destructor is `= default` (no body). -/

namespace UnsafeRefAPI

/-- `UnsafeRef::UnsafeRef(const Ref&)`: `_UnsafelyConstructFrom`. -/
def construct (src : Handle) (h : Heap) : Handle × Heap := Handle._UnsafelyConstructFrom src h

/-- `UnsafeRef::~UnsafeRef() = default`: no effect on anything. -/
def destruct (hd : Handle) (h : Heap) : Handle × Heap := (hd, h)

/-- `UnsafeRef::IncRef`. -/
def IncRef (hd : Handle) (h : Heap) : Heap := hd._IncRef h

/-- `UnsafeRef::DecRef`. -/
def DecRef (hd : Handle) (h : Heap) : Handle × Heap := Handle._DecRef hd h

/-- `UnsafeRef::IncWeakRef`. -/
def IncWeakRef (hd : Handle) (h : Heap) : Heap := hd._IncWeakRef h

/-- `UnsafeRef::DecWeakRef`. -/
def DecWeakRef (hd : Handle) (h : Heap) : Handle × Heap := Handle._DecWeakRef hd h

/-- `UnsafeRef::RefCount`. -/
def RefCount (hd : Handle) (h : Heap) : Nat := hd._RefCount h

/-- `UnsafeRef::WeakRefCount`. -/
def WeakRefCount (hd : Handle) (h : Heap) : Nat := hd._WeakRefCount h

/-- `UnsafeRef::Swap`. -/
def Swap (a b : Handle) : Handle × Handle := Handle._Swap a b

end UnsafeRefAPI

/-! The cast family.  Each copy overload is
`Ref<_WantedType>(convert(ref.Raw()), ref)`, i.e. `_AliasConstructFrom`; each
move overload is `_MoveAliasConstructFrom`.  The pointer conversion
(`static_cast` / `dynamic_cast` / `reinterpret_cast` / `const_cast`) is
passed in as a function on addresses; a failed `dynamic_cast` yields 0. -/

/-- `DynamicRefCast` (copy overload):
`Ref<_WantedType>(dynamic_cast<_WantedType*>(ref.Raw()), ref)`. -/
def DynamicRefCast (cast : Nat → Nat) (ref : Handle) (h : Heap) : Handle × Heap :=
  Handle._AliasConstructFrom (cast (RefAPI.Raw ref)) ref h

/-- `StaticRefCast` (copy overload). -/
def StaticRefCast (cast : Nat → Nat) (ref : Handle) (h : Heap) : Handle × Heap :=
  Handle._AliasConstructFrom (cast (RefAPI.Raw ref)) ref h

/-! Comparison operators on `Ref` (the `WeakRef` ones are identical). -/

/-- `operator==(const Ref&, const Ref&)`: `left.Raw() == right.Raw()`. -/
def refEq (left right : Handle) : Bool := RefAPI.Raw left = RefAPI.Raw right

/-- `operator!=(const Ref&, const Ref&)`: `left.Raw() != right.Raw()`. -/
def refNe (left right : Handle) : Bool := ¬ RefAPI.Raw left = RefAPI.Raw right

/-- `operator<(const Ref&, const Ref&)`: `left.Raw() < right.Raw()`. -/
def refLt (left right : Handle) : Bool := RefAPI.Raw left < RefAPI.Raw right

/-- `operator==(const Ref&, std::nullptr_t)`: `left.Raw() == nullptr`. -/
def refEqNullptr (left : Handle) : Bool := RefAPI.Raw left = 0

/-! `Scope` (exclusive handle): `m_Ptr` and a type-erased `m_Deleter`,
no control block.  Deleter invocations go to a plain log. -/

structure Scope where
  ptr : Nat
  deleter : Option Nat
deriving Repr, DecidableEq

namespace Scope

/-- `Scope::Release`: `std::exchange(m_Ptr, nullptr)`.
Returns (released pointer, `*this` afterwards). -/
def Release (s : Scope) : Nat × Scope := (s.ptr, { s with ptr := 0 })

/-- `Scope::Scope(Scope&& scope)`:
`m_Ptr(scope.Release()), m_Deleter(std::exchange(scope.m_Deleter, nullptr))`
(member-initialisation order: `m_Ptr` first).
Returns (new scope, moved-from source). -/
def moveConstruct (src : Scope) : Scope × Scope :=
  let (p, src1) := src.Release
  let d := src1.deleter
  (⟨p, d⟩, { src1 with deleter := none })

/-- `Scope::~Scope`:
```
if (m_Ptr) { if (m_Deleter) m_Deleter((void*)m_Ptr); m_Ptr = nullptr; }
```
`log` collects `(deleter tag, address)` invocations. -/
def destruct (s : Scope) (log : List (Nat × Nat)) : Scope × List (Nat × Nat) :=
  if s.ptr = 0 then (s, log)
  else
    ({ s with ptr := 0 },
     match s.deleter with
     | some d => log ++ [(d, s.ptr)]
     | none => log)

end Scope

/-! The full operation language over one heap: every handle operation of the
source that can touch a control block (and the pure ones, for completeness).
Used to state heap-wide lifetime invariants. -/

inductive Op where
  | constructFromRaw (p d : Nat)
  | copyConstruct (src : Handle)
  | moveConstruct (src : Handle)
  | aliasConstruct (p : Nat) (src : Handle)
  | moveAliasConstruct (p : Nat) (src : Handle)
  | weaklyConstruct (src : Handle)
  | constructFromWeak (src : Handle)
  | unsafelyConstruct (src : Handle)
  | lock (w : Handle)
  | release (hd : Handle)
  | resetRef (hd : Handle) (p d : Nat)
  | resetWeak (w : Handle)
  | swap (a b : Handle)
  | incRef (hd : Handle)
  | decRef (hd : Handle)
  | incWeakRef (hd : Handle)
  | decWeakRef (hd : Handle)
deriving Repr, DecidableEq

/-- Heap effect of each operation (the handle results are dropped;
`decRef` is also the `Ref` destructor, `decWeakRef` the `WeakRef` one). -/
def Op.apply (op : Op) (h : Heap) : Heap :=
  match op with
  | .constructFromRaw p d => (Handle._ConstructFromRaw p d h).2
  | .copyConstruct src => (Handle._CopyConstructFrom src h).2
  | .moveConstruct _ => h
  | .aliasConstruct p src => (Handle._AliasConstructFrom p src h).2
  | .moveAliasConstruct _ _ => h
  | .weaklyConstruct src => (Handle._WeaklyConstructFrom src h).2
  | .constructFromWeak src => (Handle._ConstructFromWeak src h).2
  | .unsafelyConstruct src => (Handle._UnsafelyConstructFrom src h).2
  | .lock w => (WeakRefAPI.Lock w h).2
  | .release hd => (RefAPI.Release hd h).2.2
  | .resetRef hd p d => (RefAPI.Reset hd p d h).2
  | .resetWeak w => (WeakRefAPI.Reset w h).2
  | .swap _ _ => h
  | .incRef hd => hd._IncRef h
  | .decRef hd => (Handle._DecRef hd h).2
  | .incWeakRef hd => hd._IncWeakRef h
  | .decWeakRef hd => (Handle._DecWeakRef hd h).2

/-! Scenario combinators for the N-copies claim. -/

/-- Heap after `n` successive copy-constructions from (copies of) `hd`;
every copy of `hd` has exactly `hd`'s three fields, so each copy's heap
effect is the same `_IncRef`. -/
def makeCopies (hd : Handle) : Nat → Heap → Heap
  | 0, h => h
  | n + 1, h => (Handle._CopyConstructFrom hd (makeCopies hd n h)).2

/-- Heap after destroying, left to right, the handles in `hs`
(each destruction is `~Ref`, i.e. `_DecRef`). -/
def destroyAll (hs : List Handle) (h : Heap) : Heap :=
  hs.foldl (fun acc hd => (Handle._DecRef hd acc).2) h

/-- A heap with a single live control block `b ↦ c` (the shape produced by
wrapping one resource), with explicit cursor and logs. -/
def heap1 (b : Nat) (c : AtomicRefCount) (nid : Nat) (fr : List Nat)
    (dl : List (Nat × Nat)) : Heap :=
  ⟨[(b, c)], nid, fr, dl⟩

/-! Helper lemmas about the heap primitives. -/

theorem findBlock_go_nil (b : Nat) : Heap.findBlock.go b [] = none := rfl

theorem findBlock_go_cons (b : Nat) (p : Nat × AtomicRefCount)
    (rest : List (Nat × AtomicRefCount)) :
    Heap.findBlock.go b (p :: rest) =
      if p.1 = b then some p.2 else Heap.findBlock.go b rest := rfl

theorem findBlock_go_mem (b : Nat) :
    ∀ (l : List (Nat × AtomicRefCount)) (c : AtomicRefCount),
      Heap.findBlock.go b l = some c → (b, c) ∈ l := by
  intro l
  induction l with
  | nil => intro c hc; simp [findBlock_go_nil] at hc
  | cons p rest ih =>
    intro c hc
    rw [findBlock_go_cons] at hc
    by_cases hpb : p.1 = b
    · simp [hpb] at hc
      subst hpb
      simp [← hc]
    · simp [hpb] at hc
      exact List.mem_cons_of_mem _ (ih c hc)

theorem findBlock_mem {h : Heap} {b : Nat} {c : AtomicRefCount}
    (hf : h.findBlock b = some c) : (b, c) ∈ h.blocks :=
  findBlock_go_mem b h.blocks c hf

theorem wf_findBlock {h : Heap} {b : Nat} {c : AtomicRefCount}
    (hw : h.wf) (hf : h.findBlock b = some c) :
    b < h.nextId ∧ c.strongs < U32 ∧ c.weaks < U32 :=
  hw (b, c) (findBlock_mem hf)

theorem findBlock_go_map (b b' : Nat) (f : AtomicRefCount → AtomicRefCount) :
    ∀ l : List (Nat × AtomicRefCount),
      Heap.findBlock.go b (l.map (fun p => if p.1 = b' then (p.1, f p.2) else p)) =
        if b = b' then (Heap.findBlock.go b l).map f else Heap.findBlock.go b l := by
  intro l
  induction l with
  | nil => by_cases hbb : b = b' <;> simp [hbb, findBlock_go_nil]
  | cons p rest ih =>
    by_cases hpb : p.1 = b'
    · by_cases hbb : b = b'
      · subst hbb
        simp [List.map_cons, findBlock_go_cons, hpb]
      · have hne : ¬ p.1 = b := by rw [hpb]; exact fun hc => hbb hc.symm
        have hbb2 : ¬ b' = b := fun hc => hbb hc.symm
        simp only [hbb, if_false] at ih
        simp [List.map_cons, findBlock_go_cons, hpb, hne, hbb, hbb2, ih]
    · by_cases hpb2 : p.1 = b
      · have hbb : ¬ b = b' := by rw [← hpb2]; exact hpb
        simp [List.map_cons, findBlock_go_cons, hpb, hpb2, hbb]
      · simp only [List.map_cons, if_neg hpb, findBlock_go_cons, if_neg hpb2]
        exact ih

theorem findBlock_updBlock (h : Heap) (b b' : Nat) (f : AtomicRefCount → AtomicRefCount) :
    (h.updBlock b' f).findBlock b =
      if b = b' then (h.findBlock b).map f else h.findBlock b := by
  unfold Heap.updBlock Heap.findBlock
  exact findBlock_go_map b b' f h.blocks

theorem findBlock_go_filter (b b' : Nat) :
    ∀ l : List (Nat × AtomicRefCount),
      Heap.findBlock.go b (l.filter (fun p => ¬ p.1 = b')) =
        if b = b' then none else Heap.findBlock.go b l := by
  intro l
  induction l with
  | nil => by_cases hbb : b = b' <;> simp [hbb, findBlock_go_nil]
  | cons p rest ih =>
    simp only [decide_not] at ih ⊢
    by_cases hpb : p.1 = b'
    · by_cases hbb : b = b'
      · subst hbb
        simpa [List.filter_cons, hpb] using ih
      · have hne : ¬ p.1 = b := by rw [hpb]; exact fun hc => hbb hc.symm
        have hbb2 : ¬ b' = b := fun hc => hbb hc.symm
        simp only [hbb, if_false] at ih
        simp [List.filter_cons, findBlock_go_cons, hpb, hne, hbb, hbb2, ih]
    · by_cases hpb2 : p.1 = b
      · have hbb : ¬ b = b' := by rw [← hpb2]; exact hpb
        simp [List.filter_cons, findBlock_go_cons, hpb, hpb2, hbb]
      · simp only [List.filter_cons, decide_eq_false hpb, Bool.not_false, if_true,
          findBlock_go_cons, if_neg hpb2]
        exact ih

theorem findBlock_free (h : Heap) (b b' : Nat) :
    (h.free b').findBlock b = if b = b' then none else h.findBlock b := by
  unfold Heap.free Heap.findBlock
  exact findBlock_go_filter b b' h.blocks

/-- `fetch_sub(1) - 1` on a `uint32_t` value. -/
theorem decWrap_eq (s : Nat) (hs : s < U32) :
    (s + (U32 - 1)) % U32 = if s = 0 then U32 - 1 else s - 1 := by
  have hU : U32 = 4294967296 := by norm_num [U32]
  rw [hU] at hs ⊢
  by_cases h0 : s = 0
  · simp [h0]
  · simp only [h0, if_false]
    omega

/-- `fetch_add(1) + 1` on a `uint32_t` value that does not overflow. -/
theorem incWrap_eq (s : Nat) (hs : s + 1 < U32) : (s + 1) % U32 = s + 1 :=
  Nat.mod_eq_of_lt hs

/-! Scenario lemmas: one shared resource, one control block. -/

theorem copyConstruct_heap1 (p b : Nat) (od : Option Nat) (s w nid : Nat)
    (fr : List Nat) (dl : List (Nat × Nat)) (hs : s + 1 < U32) :
    (Handle._CopyConstructFrom ⟨p, some b, od⟩ (heap1 b ⟨s, w⟩ nid fr dl)).2 =
      heap1 b ⟨s + 1, w⟩ nid fr dl := by
  simp [Handle._CopyConstructFrom, Handle._IncRef, heap1, Heap.findBlock,
    findBlock_go_cons, Heap.updBlock, AtomicRefCount.IncRef, incWrap_eq s hs]

theorem makeCopies_heap1 (p b : Nat) (od : Option Nat) (w nid : Nat)
    (fr : List Nat) (dl : List (Nat × Nat)) :
    ∀ k s : Nat, s + k < U32 → 0 < s →
      makeCopies ⟨p, some b, od⟩ k (heap1 b ⟨s, w⟩ nid fr dl) =
        heap1 b ⟨s + k, w⟩ nid fr dl := by
  intro k
  induction k with
  | zero => intro s _ _; rfl
  | succ n ih =>
    intro s hk h0
    show (Handle._CopyConstructFrom _ (makeCopies _ n _)).2 = _
    rw [ih s (by omega) h0]
    rw [copyConstruct_heap1 p b od (s + n) w nid fr dl (by omega)]
    congr 2

theorem decRef_heap1_gt1 (p b : Nat) (od : Option Nat) (s w nid : Nat)
    (fr : List Nat) (dl : List (Nat × Nat)) (h2s : 2 ≤ s) (hs : s < U32) :
    Handle._DecRef ⟨p, some b, od⟩ (heap1 b ⟨s, w⟩ nid fr dl) =
      (⟨p, some b, od⟩, heap1 b ⟨s - 1, w⟩ nid fr dl) := by
  have hdec := decWrap_eq s hs
  rw [if_neg (by omega : ¬ s = 0)] at hdec
  simp [Handle._DecRef, heap1, Heap.findBlock, findBlock_go_cons,
    AtomicRefCount.DecRef, hdec, Heap.updBlock]
  exact fun h0 => absurd h0 (by omega)

theorem decRef_heap1_last (p b d : Nat) (nid : Nat)
    (fr : List Nat) (dl : List (Nat × Nat)) (hp : ¬ p = 0) :
    Handle._DecRef ⟨p, some b, some d⟩ (heap1 b ⟨1, 0⟩ nid fr dl) =
      (⟨0, none, some d⟩, ⟨[], nid, fr ++ [b], dl ++ [(d, p)]⟩) := by
  have hdec := decWrap_eq 1 (by norm_num [U32])
  simp only [if_neg (by omega : ¬ (1 : Nat) = 0)] at hdec
  simp [Handle._DecRef, heap1, Heap.findBlock, findBlock_go_cons,
    AtomicRefCount.DecRef, hdec, Heap.updBlock, hp, Handle._WeakRefCount,
    Heap.runDeleter, AtomicRefCount.GetWeaks, Heap.free]

theorem destroyAll_cons (x : Handle) (rest : List Handle) (h : Heap) :
    destroyAll (x :: rest) h = destroyAll rest (Handle._DecRef x h).2 := rfl

theorem destroyAll_partial (p b : Nat) (od : Option Nat) (w nid : Nat)
    (fr : List Nat) (dl : List (Nat × Nat)) :
    ∀ (hs : List Handle) (m : Nat),
      (∀ x ∈ hs, x = (⟨p, some b, od⟩ : Handle)) → 1 ≤ m →
      hs.length + m < U32 →
      destroyAll hs (heap1 b ⟨hs.length + m, w⟩ nid fr dl) =
        heap1 b ⟨m, w⟩ nid fr dl := by
  intro hs
  induction hs with
  | nil => intro m _ _ _; simp [destroyAll, heap1]
  | cons x rest ih =>
    intro m hall hm hlen
    have hx : x = (⟨p, some b, od⟩ : Handle) := hall x (List.mem_cons_self x rest)
    subst hx
    simp only [List.length_cons] at hlen ⊢
    rw [destroyAll_cons]
    rw [decRef_heap1_gt1 p b od (rest.length + 1 + m) w nid fr dl (by omega) (by omega)]
    rw [(by omega : rest.length + 1 + m - 1 = rest.length + m)]
    exact ih m (fun y hy => hall y (List.mem_cons_of_mem _ hy)) hm (by omega)

theorem destroyAll_uniform (p b d : Nat) (nid : Nat)
    (fr : List Nat) (dl : List (Nat × Nat)) (hp : ¬ p = 0) :
    ∀ hs : List Handle,
      (∀ x ∈ hs, x = (⟨p, some b, some d⟩ : Handle)) →
      0 < hs.length → hs.length < U32 →
      destroyAll hs (heap1 b ⟨hs.length, 0⟩ nid fr dl) =
        ⟨[], nid, fr ++ [b], dl ++ [(d, p)]⟩ := by
  intro hs
  induction hs with
  | nil => intro _ h0 _; simp at h0
  | cons x rest ih =>
    intro hall _ hlen
    have hx : x = (⟨p, some b, some d⟩ : Handle) := hall x (List.mem_cons_self x rest)
    subst hx
    rcases rest with _ | ⟨y, rest2⟩
    · simp only [List.length_cons, List.length_nil]
      rw [destroyAll_cons, decRef_heap1_last p b d nid fr dl hp]
      rfl
    · simp only [List.length_cons] at hlen ih ⊢
      rw [destroyAll_cons]
      rw [decRef_heap1_gt1 p b (some d) (rest2.length + 1 + 1) 0 nid fr dl
        (by omega) (by omega)]
      rw [(by omega : rest2.length + 1 + 1 - 1 = rest2.length + 1)]
      exact ih (fun z hz => hall z (List.mem_cons_of_mem _ hz)) (by omega) (by omega)

/-- C1: A resource wrapped exactly once (`_ConstructFromRaw` from a non-null
raw pointer, capturing the concrete deleter `d`), copied `n` more times
(`_CopyConstructFrom`), has strong count `n + 1`; destroying all `n + 1`
handles — every copy carries the identical field triple, so any destruction
order is this fold — leaves the strong count at 0 (the block is deallocated,
so no live strong reference remains), invokes the captured deleter on the
resource exactly once (`deletions = [(d, p)]`), and before the final
destruction no deleter has fired at all: after `k ≤ n` destructions the log
is still empty and the strong count is `n + 1 - k`, so the single deletion
happens exactly at the destruction that takes the strong count from 1 to 0. -/
theorem C1_copy_destroy_single_deletion
    (p d n : Nat) (hs : List Handle)
    (hp : ¬ p = 0) (hn : n + 1 < U32)
    (hall : ∀ x ∈ hs, x = (Handle._ConstructFromRaw p d Heap.empty).1)
    (hlen : hs.length = n + 1) :
    (makeCopies (Handle._ConstructFromRaw p d Heap.empty).1 n
        (Handle._ConstructFromRaw p d Heap.empty).2).findBlock 0 =
      some ⟨n + 1, 0⟩ ∧
    destroyAll hs (makeCopies (Handle._ConstructFromRaw p d Heap.empty).1 n
        (Handle._ConstructFromRaw p d Heap.empty).2) =
      ⟨[], 1, [0], [(d, p)]⟩ ∧
    (∀ k, k ≤ n → destroyAll (hs.take k)
        (makeCopies (Handle._ConstructFromRaw p d Heap.empty).1 n
          (Handle._ConstructFromRaw p d Heap.empty).2) =
      heap1 0 ⟨n + 1 - k, 0⟩ 1 [] []) := by
  have hcon : Handle._ConstructFromRaw p d Heap.empty =
      (⟨p, some 0, some d⟩, heap1 0 ⟨1, 0⟩ 1 [] []) := by
    simp [Handle._ConstructFromRaw, Heap.alloc, Heap.empty, heap1, hp,
      AtomicRefCount.init]
  rw [hcon]
  simp only []
  have hmk : makeCopies (⟨p, some 0, some d⟩ : Handle) n (heap1 0 ⟨1, 0⟩ 1 [] []) =
      heap1 0 ⟨n + 1, 0⟩ 1 [] [] := by
    rw [makeCopies_heap1 p 0 (some d) 0 1 [] [] n 1 (by omega) (by omega)]
    rw [(by omega : 1 + n = n + 1)]
  rw [hmk]
  refine ⟨by simp [heap1, Heap.findBlock, findBlock_go_cons], ?_, ?_⟩
  · have := destroyAll_uniform p 0 d 1 [] [] hp hs
      (by intro x hx; rw [hall x hx, hcon]) (by omega) (by omega)
    rw [hlen] at this
    exact this
  · intro k hk
    have htk : (hs.take k).length = k := by
      rw [List.length_take, hlen]; omega
    have := destroyAll_partial p 0 (some d) 0 1 [] [] (hs.take k) (n + 1 - k)
      (by intro x hx; rw [hall x (List.mem_of_mem_take hx), hcon])
      (by omega) (by rw [htk]; omega)
    rw [htk, (by omega : k + (n + 1 - k) = n + 1)] at this
    exact this

theorem findBlock_runDeleter (h : Heap) (d p b : Nat) :
    (h.runDeleter d p).findBlock b = h.findBlock b := rfl

/-- C2: the decrement-strong path (`_RefBase::_DecRef` over
`_AtomicRefCount::DecRef`) on a handle holding a resource and a control
block does exactly this: decrement the strong count; if the result is
nonzero, nothing else changes; if the result is zero, invoke the captured
deleter on the resource, null the handle's resource pointer, then check the
weak count: if it is zero deallocate the control block, otherwise leave the
block alive (with strong count 0) for observers to detect expiration. -/
theorem C2_decrement_strong_path
    (h : Heap) (hd : Handle) (b d : Nat) (c : AtomicRefCount)
    (hrc : hd.refCount = some b)
    (hf : h.findBlock b = some c)
    (hs1 : 0 < c.strongs) (hsU : c.strongs < U32)
    (hp : ¬ hd.ptr = 0) (hdel : hd.deleter = some d) :
    (2 ≤ c.strongs →
      Handle._DecRef hd h =
        (hd, h.updBlock b (fun x => { x with strongs := c.strongs - 1 }))) ∧
    (c.strongs = 1 →
      (Handle._DecRef hd h).2.deletions = h.deletions ++ [(d, hd.ptr)] ∧
      (Handle._DecRef hd h).1.ptr = 0 ∧
      (c.weaks = 0 →
        (Handle._DecRef hd h).2.findBlock b = none ∧
        (Handle._DecRef hd h).2.freed = h.freed ++ [b] ∧
        (Handle._DecRef hd h).1.refCount = none) ∧
      (0 < c.weaks →
        (Handle._DecRef hd h).2.findBlock b = some { c with strongs := 0 } ∧
        (Handle._DecRef hd h).2.freed = h.freed ∧
        (Handle._DecRef hd h).1.refCount = some b)) := by
  obtain ⟨P, R, D⟩ := hd
  simp only [Handle.ptr] at hp
  simp only [Handle.refCount] at hrc
  simp only [Handle.deleter] at hdel
  subst hrc
  subst hdel
  constructor
  · intro h2
    have hdec := decWrap_eq c.strongs hsU
    rw [if_neg (by omega : ¬ c.strongs = 0)] at hdec
    simp only [Handle._DecRef, hf, AtomicRefCount.DecRef, hdec]
    rw [if_neg (by omega : ¬ c.strongs - 1 = 0)]
  · intro h1
    have hdec0 : (c.strongs + (U32 - 1)) % U32 = 0 := by
      rw [h1]; norm_num [U32]
    have hW : Handle._WeakRefCount ⟨0, some b, some d⟩
        ((h.updBlock b (fun x => { x with strongs := 0 })).runDeleter d P) = c.weaks := by
      simp only [Handle._WeakRefCount, findBlock_runDeleter, findBlock_updBlock,
        if_pos rfl, hf, AtomicRefCount.GetWeaks]
      simp
    have hred : Handle._DecRef ⟨P, some b, some d⟩ h =
        if c.weaks = 0
        then (⟨0, none, some d⟩,
          ((h.updBlock b (fun x => { x with strongs := 0 })).runDeleter d P).free b)
        else (⟨0, some b, some d⟩,
          (h.updBlock b (fun x => { x with strongs := 0 })).runDeleter d P) := by
      simp only [Handle._DecRef, hf, AtomicRefCount.DecRef, hdec0, if_pos rfl,
        if_neg hp, hW]
      simp
    rw [hred]
    by_cases hw : c.weaks = 0
    · simp only [if_pos hw]
      refine ⟨?_, ?_, fun _ => ⟨?_, ?_, ?_⟩, fun h0 => absurd hw (by omega)⟩
      · simp [Heap.free, Heap.runDeleter, Heap.updBlock]
      · trivial
      · rw [findBlock_free, if_pos rfl]
      · simp [Heap.free, Heap.runDeleter, Heap.updBlock]
      · trivial
    · simp only [if_neg hw]
      refine ⟨?_, ?_, fun h0 => absurd h0 hw, fun _ => ⟨?_, ?_, ?_⟩⟩
      · simp [Heap.runDeleter, Heap.updBlock]
      · trivial
      · rw [findBlock_runDeleter, findBlock_updBlock, if_pos rfl, hf]
        simp
      · simp [Heap.runDeleter, Heap.updBlock]
      · trivial

theorem C2_decrement_strong_path_witness :
    (Handle._DecRef ⟨5, some 0, some 7⟩ ⟨[(0, ⟨1, 0⟩)], 1, [], []⟩).2.deletions =
      [(7, 5)] ∧
    (Handle._DecRef ⟨5, some 0, some 7⟩ ⟨[(0, ⟨1, 0⟩)], 1, [], []⟩).2.findBlock 0 =
      none := by
  have hmain := C2_decrement_strong_path ⟨[(0, ⟨1, 0⟩)], 1, [], []⟩ ⟨5, some 0, some 7⟩
    0 7 ⟨1, 0⟩ (by decide) (by decide) (by decide) (by decide) (by decide) (by decide)
  exact ⟨by simpa using (hmain.2 rfl).1, ((hmain.2 rfl).2.2.1 rfl).1⟩

/-! Per-operation lifetime lemmas: which operations can deallocate a control
block, and exactly when. -/

theorem incRef_keeps (hd : Handle) (h : Heap) (b : Nat) (c : AtomicRefCount)
    (hf : h.findBlock b = some c) : ∃ c', (hd._IncRef h).findBlock b = some c' := by
  cases hrc : hd.refCount with
  | none => exact ⟨c, by simp only [Handle._IncRef, hrc]; exact hf⟩
  | some b' =>
    cases hfb : h.findBlock b' with
    | none => exact ⟨c, by simp only [Handle._IncRef, hrc, hfb]; exact hf⟩
    | some c' =>
      simp only [Handle._IncRef, hrc, hfb]
      rw [findBlock_updBlock]
      by_cases hbb : b = b'
      · exact ⟨_, by rw [if_pos hbb, hf]; rfl⟩
      · exact ⟨c, by rw [if_neg hbb]; exact hf⟩

theorem incWeakRef_keeps (hd : Handle) (h : Heap) (b : Nat) (c : AtomicRefCount)
    (hf : h.findBlock b = some c) : ∃ c', (hd._IncWeakRef h).findBlock b = some c' := by
  cases hrc : hd.refCount with
  | none => exact ⟨c, by simp only [Handle._IncWeakRef, hrc]; exact hf⟩
  | some b' =>
    cases hfb : h.findBlock b' with
    | none => exact ⟨c, by simp only [Handle._IncWeakRef, hrc, hfb]; exact hf⟩
    | some c' =>
      simp only [Handle._IncWeakRef, hrc, hfb]
      rw [findBlock_updBlock]
      by_cases hbb : b = b'
      · exact ⟨_, by rw [if_pos hbb, hf]; rfl⟩
      · exact ⟨c, by rw [if_neg hbb]; exact hf⟩

theorem constructFromRaw_keeps (p d : Nat) (h : Heap) (b : Nat) (c : AtomicRefCount)
    (hf : h.findBlock b = some c) :
    ∃ c', ((Handle._ConstructFromRaw p d h).2.findBlock b) = some c' := by
  by_cases hp : p = 0
  · exact ⟨c, by simp only [Handle._ConstructFromRaw, if_pos hp]; exact hf⟩
  · simp only [Handle._ConstructFromRaw, if_neg hp, Heap.alloc, Heap.findBlock,
      findBlock_go_cons]
    by_cases hb : h.nextId = b
    · exact ⟨AtomicRefCount.init, by rw [if_pos hb]⟩
    · exact ⟨c, by rw [if_neg hb]; exact hf⟩

theorem decWrap_zero_iff (s : Nat) (hs : s < U32) :
    (s + (U32 - 1)) % U32 = 0 ↔ s = 1 := by
  rw [decWrap_eq s hs]
  by_cases h0 : s = 0
  · subst h0
    simp only [if_pos rfl]
    constructor
    · intro hc; exact absurd hc (by norm_num [U32])
    · intro hc; cases hc
  · simp only [if_neg h0]
    omega

theorem findBlock_blocks_eq {h1 h2 : Heap} (hb : h1.blocks = h2.blocks) (b : Nat) :
    h1.findBlock b = h2.findBlock b := by
  unfold Heap.findBlock
  rw [hb]

theorem findBlock_setDeletions (h : Heap) (dl : List (Nat × Nat)) (b : Nat) :
    ({ h with deletions := dl } : Heap).findBlock b = h.findBlock b := rfl

/-- Heap-level behaviour of `_DecRef` on a handle holding control block `b'`:
if the decremented strong count is nonzero only the write-back happens;
if it is zero the heap additionally gets (possibly) a deletion logged, and
the block is freed exactly when its weak count is zero. -/
theorem decRef_heap_spec (hd : Handle) (h : Heap) (b' : Nat) (c' : AtomicRefCount)
    (hrc : hd.refCount = some b') (hfb : h.findBlock b' = some c') :
    (¬ (c'.strongs + (U32 - 1)) % U32 = 0 →
      (Handle._DecRef hd h).2 =
        h.updBlock b' (fun x => { x with strongs := (c'.strongs + (U32 - 1)) % U32 })) ∧
    ((c'.strongs + (U32 - 1)) % U32 = 0 →
      ∃ dl : List (Nat × Nat),
        (Handle._DecRef hd h).2 =
          if c'.weaks = 0
          then ({ h.updBlock b' (fun x => { x with strongs := 0 }) with
                  deletions := dl } : Heap).free b'
          else { h.updBlock b' (fun x => { x with strongs := 0 }) with
                 deletions := dl }) := by
  obtain ⟨P, R, D⟩ := hd
  simp only [Handle.refCount] at hrc
  subst hrc
  have hupd : ∀ hp2 : Heap, hp2.blocks =
      (h.updBlock b' (fun x => { x with strongs := 0 })).blocks →
      hp2.findBlock b' = some { c' with strongs := 0 } := by
    intro hp2 hblocks
    rw [findBlock_blocks_eq hblocks b']
    rw [findBlock_updBlock, if_pos rfl, hfb]
    rfl
  constructor
  · intro hn
    simp only [Handle._DecRef, hfb, AtomicRefCount.DecRef, if_neg hn]
  · intro hn
    by_cases hp0 : P = 0
    · subst hp0
      refine ⟨h.deletions, ?_⟩
      have hW : Handle._WeakRefCount ⟨0, some b', D⟩
          (h.updBlock b' (fun x => { x with strongs := 0 })) = c'.weaks := by
        simp only [Handle._WeakRefCount, hupd _ rfl]
        rfl
      simp only [Handle._DecRef, hfb, AtomicRefCount.DecRef, hn, if_pos rfl,
        eq_self_iff_true, if_true, hW]
      by_cases hw : c'.weaks = 0
      · simp only [hw, eq_self_iff_true, if_true, if_pos rfl]
        rfl
      · simp only [if_neg hw]
        rfl
    · cases hD : D with
      | none =>
        refine ⟨h.deletions, ?_⟩
        have hW : Handle._WeakRefCount ⟨0, some b', none⟩
            (h.updBlock b' (fun x => { x with strongs := 0 })) = c'.weaks := by
          simp only [Handle._WeakRefCount, hupd _ rfl]
          rfl
        simp only [Handle._DecRef, hfb, AtomicRefCount.DecRef, hn, if_pos rfl,
          if_neg hp0, hW]
        by_cases hw : c'.weaks = 0
        · simp only [hw, eq_self_iff_true, if_true, if_pos rfl]
          rfl
        · simp only [if_neg hw]
          rfl
      | some d =>
        refine ⟨h.deletions ++ [(d, P)], ?_⟩
        have hW : Handle._WeakRefCount ⟨0, some b', some d⟩
            ((h.updBlock b' (fun x => { x with strongs := 0 })).runDeleter d P) =
              c'.weaks := by
          simp only [Handle._WeakRefCount]
          rw [hupd ((h.updBlock b' (fun x => { x with strongs := 0 })).runDeleter d P) rfl]
          rfl
        simp only [Handle._DecRef, hfb, AtomicRefCount.DecRef, hn, if_pos rfl,
          if_neg hp0, hW]
        by_cases hw : c'.weaks = 0
        · simp only [hw, eq_self_iff_true, if_true, if_pos rfl]
          rfl
        · simp only [if_neg hw]
          rfl

theorem decRef_kills (hd : Handle) (h : Heap) (b : Nat) (c : AtomicRefCount)
    (hf : h.findBlock b = some c) (hsU : c.strongs < U32) :
    ((Handle._DecRef hd h).2.findBlock b = none ↔
      hd.refCount = some b ∧ c.strongs = 1 ∧ c.weaks = 0) := by
  cases hrc : hd.refCount with
  | none =>
    simp only [Handle._DecRef, hrc]
    simp [hf]
  | some b' =>
    cases hfb : h.findBlock b' with
    | none =>
      simp only [Handle._DecRef, hrc, hfb, hf]
      constructor
      · intro hx; cases hx
      · rintro ⟨hx, -, -⟩
        rw [Option.some_inj.mp hx, hf] at hfb
        cases hfb
    | some c' =>
      have spec := decRef_heap_spec hd h b' c' hrc hfb
      by_cases hn : (c'.strongs + (U32 - 1)) % U32 = 0
      · obtain ⟨dl, hres⟩ := spec.2 hn
        rw [hres]
        by_cases hw : c'.weaks = 0
        · rw [if_pos hw, findBlock_free]
          by_cases hbb : b = b'
          · subst hbb
            have hc : c' = c := Option.some_inj.mp (hfb.symm.trans hf)
            subst hc
            rw [if_pos rfl]
            exact ⟨fun _ => ⟨rfl, (decWrap_zero_iff _ hsU).mp hn, hw⟩, fun _ => rfl⟩
          · rw [if_neg hbb, findBlock_setDeletions, findBlock_updBlock, if_neg hbb, hf]
            constructor
            · intro hx; cases hx
            · rintro ⟨hx, -, -⟩
              exact absurd (Option.some_inj.mp hx).symm hbb
        · rw [if_neg hw, findBlock_setDeletions, findBlock_updBlock]
          by_cases hbb : b = b'
          · subst hbb
            have hc : c' = c := Option.some_inj.mp (hfb.symm.trans hf)
            subst hc
            rw [if_pos rfl, hf]
            simp only [Option.map_some]
            constructor
            · intro hx; cases hx
            · rintro ⟨-, -, hcw⟩
              exact absurd hcw hw
          · rw [if_neg hbb, hf]
            constructor
            · intro hx; cases hx
            · rintro ⟨hx, -, -⟩
              exact absurd (Option.some_inj.mp hx).symm hbb
      · rw [spec.1 hn, findBlock_updBlock]
        by_cases hbb : b = b'
        · subst hbb
          have hc : c' = c := Option.some_inj.mp (hfb.symm.trans hf)
          subst hc
          rw [if_pos rfl, hf]
          simp only [Option.map_some]
          constructor
          · intro hx; cases hx
          · rintro ⟨-, hcs, -⟩
            exact absurd ((decWrap_zero_iff _ hsU).mpr hcs) hn
        · rw [if_neg hbb, hf]
          constructor
          · intro hx; cases hx
          · rintro ⟨hx, -, -⟩
            exact absurd (Option.some_inj.mp hx).symm hbb

theorem decWeakRef_kills (hd : Handle) (h : Heap) (b : Nat) (c : AtomicRefCount)
    (hf : h.findBlock b = some c) (hwU : c.weaks < U32) :
    ((Handle._DecWeakRef hd h).2.findBlock b = none ↔
      hd.refCount = some b ∧ c.weaks = 1 ∧ c.strongs = 0) := by
  cases hrc : hd.refCount with
  | none =>
    simp only [Handle._DecWeakRef, hrc]
    simp [hf]
  | some b' =>
    cases hfb : h.findBlock b' with
    | none =>
      simp only [Handle._DecWeakRef, hrc, hfb, hf]
      constructor
      · intro hx; cases hx
      · rintro ⟨hx, -, -⟩
        rw [Option.some_inj.mp hx, hf] at hfb
        cases hfb
    | some c' =>
      have hR : Handle._RefCount hd
          (h.updBlock b' (fun x => { x with weaks := (c'.weaks + (U32 - 1)) % U32 })) =
            c'.strongs := by
        simp only [Handle._RefCount, hrc, findBlock_updBlock, if_pos rfl, hfb]
        rfl
      simp only [Handle._DecWeakRef, hrc, hfb, AtomicRefCount.DecWeakRef, hR]
      by_cases hcond : ((c'.weaks + (U32 - 1)) % U32 = 0 ∧ c'.strongs = 0)
      · simp only [if_pos hcond]
        rw [findBlock_free]
        by_cases hbb : b = b'
        · subst hbb
          have hc : c' = c := Option.some_inj.mp (hfb.symm.trans hf)
          subst hc
          rw [if_pos rfl]
          exact ⟨fun _ => ⟨rfl, (decWrap_zero_iff _ hwU).mp hcond.1, hcond.2⟩,
            fun _ => rfl⟩
        · rw [if_neg hbb, findBlock_updBlock, if_neg hbb, hf]
          constructor
          · intro hx; cases hx
          · rintro ⟨hx, -, -⟩
            exact absurd (Option.some_inj.mp hx).symm hbb
      · simp only [if_neg hcond]
        rw [findBlock_updBlock]
        by_cases hbb : b = b'
        · subst hbb
          have hc : c' = c := Option.some_inj.mp (hfb.symm.trans hf)
          subst hc
          rw [if_pos rfl, hf]
          simp only [Option.map_some]
          constructor
          · intro hx; cases hx
          · rintro ⟨-, hw1, hs0⟩
            exact absurd ⟨(decWrap_zero_iff _ hwU).mpr hw1, hs0⟩ hcond
        · rw [if_neg hbb, hf]
          constructor
          · intro hx; cases hx
          · rintro ⟨hx, -, -⟩
            exact absurd (Option.some_inj.mp hx).symm hbb

theorem aliasConstruct_keeps (p : Nat) (src : Handle) (h : Heap) (b : Nat)
    (c : AtomicRefCount) (hf : h.findBlock b = some c) :
    ∃ c', (Handle._AliasConstructFrom p src h).2.findBlock b = some c' := by
  cases hrc : src.refCount with
  | none => exact ⟨c, by simp only [Handle._AliasConstructFrom, hrc]; exact hf⟩
  | some b' =>
    simp only [Handle._AliasConstructFrom, hrc]
    exact incRef_keeps _ h b c hf

theorem constructFromWeak_keeps (weak : Handle) (h : Heap) (b : Nat)
    (c : AtomicRefCount) (hf : h.findBlock b = some c) :
    ∃ c', (Handle._ConstructFromWeak weak h).2.findBlock b = some c' := by
  by_cases h0 : weak._RefCount h = 0
  · exact ⟨c, by simp only [Handle._ConstructFromWeak, if_pos h0]; exact hf⟩
  · simp only [Handle._ConstructFromWeak, if_neg h0]
    exact incRef_keeps _ h b c hf

theorem lock_keeps (w : Handle) (h : Heap) (b : Nat)
    (c : AtomicRefCount) (hf : h.findBlock b = some c) :
    ∃ c', (WeakRefAPI.Lock w h).2.findBlock b = some c' := by
  by_cases hexp : WeakRefAPI.Expired w h = true
  · exact ⟨c, by simp only [WeakRefAPI.Lock, if_pos hexp]; exact hf⟩
  · simp only [WeakRefAPI.Lock, if_neg hexp]
    exact constructFromWeak_keeps w h b c hf

theorem constructFromRaw_pres (p d : Nat) (h : Heap) (b : Nat)
    (hb : b < h.nextId) :
    (Handle._ConstructFromRaw p d h).2.findBlock b = h.findBlock b := by
  by_cases hp : p = 0
  · simp only [Handle._ConstructFromRaw, if_pos hp]
  · simp only [Handle._ConstructFromRaw, if_neg hp, Heap.alloc]
    unfold Heap.findBlock
    rw [findBlock_go_cons, if_neg (by omega : ¬ h.nextId = b)]

/-- C3: under every handle operation of the source (construct, copy, move,
alias, weak-construct, promote/lock, reset, release, destroy, and the unsafe
manual increments/decrements), a live control block is deallocated only by a
decrement that takes the counts to (0, 0): if an operation removes block `b`,
the block held `(strongs, weaks) = (1, 0)` or `(0, 1)` beforehand — so both
counts are zero right after the freeing decrement, and the block is never
deallocated while either count is nonzero.  Moreover a strong decrement on a
handle of block `b` with `(1, 0)` always deallocates, and the decrement-weak
path deallocates if and only if the weak decrement reaches zero and the
strong count is already zero. -/
theorem C3_block_deallocated_iff_counts_zero
    (op : Op) (h : Heap) (b : Nat) (c : AtomicRefCount)
    (hwf : h.wf) (hf : h.findBlock b = some c) :
    ((op.apply h).findBlock b = none →
      (c.strongs = 1 ∧ c.weaks = 0) ∨ (c.strongs = 0 ∧ c.weaks = 1)) ∧
    (∀ hd : Handle, op = Op.decRef hd → hd.refCount = some b →
      c.strongs = 1 → c.weaks = 0 → (op.apply h).findBlock b = none) ∧
    (∀ hd : Handle, op = Op.decWeakRef hd →
      ((op.apply h).findBlock b = none ↔
        hd.refCount = some b ∧ c.weaks = 1 ∧ c.strongs = 0)) := by
  obtain ⟨hbn, hsU, hwU⟩ := wf_findBlock hwf hf
  refine ⟨?_, ?_, ?_⟩
  · intro hkill
    cases op with
    | constructFromRaw p d =>
      obtain ⟨c', hc'⟩ := constructFromRaw_keeps p d h b c hf
      simp only [Op.apply] at hkill
      rw [hc'] at hkill; cases hkill
    | copyConstruct src =>
      obtain ⟨c', hc'⟩ := incRef_keeps ⟨src.ptr, src.refCount, src.deleter⟩ h b c hf
      simp only [Op.apply, Handle._CopyConstructFrom] at hkill
      rw [hc'] at hkill; cases hkill
    | moveConstruct src =>
      simp only [Op.apply] at hkill
      rw [hf] at hkill; cases hkill
    | aliasConstruct p src =>
      obtain ⟨c', hc'⟩ := aliasConstruct_keeps p src h b c hf
      simp only [Op.apply] at hkill
      rw [hc'] at hkill; cases hkill
    | moveAliasConstruct p src =>
      simp only [Op.apply] at hkill
      rw [hf] at hkill; cases hkill
    | weaklyConstruct src =>
      obtain ⟨c', hc'⟩ := incWeakRef_keeps ⟨src.ptr, src.refCount, src.deleter⟩ h b c hf
      simp only [Op.apply, Handle._WeaklyConstructFrom] at hkill
      rw [hc'] at hkill; cases hkill
    | constructFromWeak src =>
      obtain ⟨c', hc'⟩ := constructFromWeak_keeps src h b c hf
      simp only [Op.apply] at hkill
      rw [hc'] at hkill; cases hkill
    | unsafelyConstruct src =>
      simp only [Op.apply, Handle._UnsafelyConstructFrom] at hkill
      rw [hf] at hkill; cases hkill
    | lock w =>
      obtain ⟨c', hc'⟩ := lock_keeps w h b c hf
      simp only [Op.apply] at hkill
      rw [hc'] at hkill; cases hkill
    | release hd =>
      simp only [Op.apply, RefAPI.Release, Handle._Swap] at hkill
      obtain ⟨-, hs1, hw0⟩ := (decRef_kills _ h b c hf hsU).mp hkill
      exact Or.inl ⟨hs1, hw0⟩
    | resetRef hd p d =>
      have hpres : (Handle._ConstructFromRaw p d h).2.findBlock b = some c := by
        rw [constructFromRaw_pres p d h b hbn]; exact hf
      simp only [Op.apply, RefAPI.Reset, Handle._Swap] at hkill
      obtain ⟨-, hs1, hw0⟩ := (decRef_kills _ _ b c hpres hsU).mp hkill
      exact Or.inl ⟨hs1, hw0⟩
    | resetWeak w =>
      simp only [Op.apply, WeakRefAPI.Reset, Handle._Swap] at hkill
      obtain ⟨-, hw1, hs0⟩ := (decWeakRef_kills _ h b c hf hwU).mp hkill
      exact Or.inr ⟨hs0, hw1⟩
    | swap a b2 =>
      simp only [Op.apply] at hkill
      rw [hf] at hkill; cases hkill
    | incRef hd =>
      obtain ⟨c', hc'⟩ := incRef_keeps hd h b c hf
      simp only [Op.apply] at hkill
      rw [hc'] at hkill; cases hkill
    | decRef hd =>
      simp only [Op.apply] at hkill
      obtain ⟨-, hs1, hw0⟩ := (decRef_kills hd h b c hf hsU).mp hkill
      exact Or.inl ⟨hs1, hw0⟩
    | incWeakRef hd =>
      obtain ⟨c', hc'⟩ := incWeakRef_keeps hd h b c hf
      simp only [Op.apply] at hkill
      rw [hc'] at hkill; cases hkill
    | decWeakRef hd =>
      simp only [Op.apply] at hkill
      obtain ⟨-, hw1, hs0⟩ := (decWeakRef_kills hd h b c hf hwU).mp hkill
      exact Or.inr ⟨hs0, hw1⟩
  · rintro hd rfl hrc hs1 hw0
    simp only [Op.apply]
    exact (decRef_kills hd h b c hf hsU).mpr ⟨hrc, hs1, hw0⟩
  · rintro hd rfl
    simp only [Op.apply]
    exact decWeakRef_kills hd h b c hf hwU

theorem C1_copy_destroy_single_deletion_witness :
    destroyAll (List.replicate 3 ⟨5, some 0, some 7⟩)
        (makeCopies (Handle._ConstructFromRaw 5 7 Heap.empty).1 2
          (Handle._ConstructFromRaw 5 7 Heap.empty).2) = ⟨[], 1, [0], [(7, 5)]⟩ :=
  (C1_copy_destroy_single_deletion 5 7 2 (List.replicate 3 ⟨5, some 0, some 7⟩)
    (by decide) (by decide) (by decide) (by decide)).2.1

theorem C3_block_deallocated_iff_counts_zero_witness :
    ((Op.decWeakRef ⟨0, some 0, none⟩).apply ⟨[(0, ⟨0, 1⟩)], 1, [], []⟩).findBlock 0 =
      none :=
  ((C3_block_deallocated_iff_counts_zero (Op.decWeakRef ⟨0, some 0, none⟩)
      ⟨[(0, ⟨0, 1⟩)], 1, [], []⟩ 0 ⟨0, 1⟩ (by decide) (by decide)).2.2
    ⟨0, some 0, none⟩ rfl).mpr ⟨rfl, rfl, rfl⟩

/-- C4: `WeakRef::Lock` on an expired observer (strong count zero) returns
the empty handle and leaves the heap — hence both counts — completely
unchanged; on a non-expired observer it returns a handle sharing the same
control block and deleter, with the strong count incremented by exactly one
and nothing else changed. -/
theorem C4_lock_promote (w : Handle) (h : Heap) :
    (WeakRefAPI.Expired w h = true →
      WeakRefAPI.Lock w h = (⟨0, none, none⟩, h)) ∧
    (∀ b c, WeakRefAPI.Expired w h = false → w.refCount = some b →
      h.findBlock b = some c → c.strongs + 1 < U32 →
      WeakRefAPI.Lock w h =
        (⟨w.ptr, some b, w.deleter⟩,
         h.updBlock b (fun x => { x with strongs := c.strongs + 1 }))) := by
  constructor
  · intro hexp
    simp only [WeakRefAPI.Lock, if_pos hexp]
  · intro b c hexp hrc hfc hinc
    have h0 : ¬ Handle._RefCount w h = 0 := by
      simpa [WeakRefAPI.Expired, WeakRefAPI.RefCount] using hexp
    rw [WeakRefAPI.Lock, if_neg (by simp [WeakRefAPI.Expired, WeakRefAPI.RefCount, h0])]
    simp only [Handle._ConstructFromWeak, if_neg h0, Handle._IncRef, hrc, hfc,
      AtomicRefCount.IncRef, incWrap_eq c.strongs hinc]

theorem C4_lock_promote_witness :
    WeakRefAPI.Lock ⟨5, some 0, some 7⟩ ⟨[(0, ⟨0, 1⟩)], 1, [], []⟩ =
      (⟨0, none, none⟩, ⟨[(0, ⟨0, 1⟩)], 1, [], []⟩) ∧
    WeakRefAPI.Lock ⟨5, some 0, some 7⟩ ⟨[(0, ⟨2, 1⟩)], 1, [], []⟩ =
      (⟨5, some 0, some 7⟩, ⟨[(0, ⟨3, 1⟩)], 1, [], []⟩) := by
  constructor
  · exact (C4_lock_promote ⟨5, some 0, some 7⟩ ⟨[(0, ⟨0, 1⟩)], 1, [], []⟩).1 (by decide)
  · rw [(C4_lock_promote ⟨5, some 0, some 7⟩ ⟨[(0, ⟨2, 1⟩)], 1, [], []⟩).2 0 ⟨2, 1⟩
      (by decide) rfl (by decide) (by decide)]
    decide

/-- `_DecRef` on a handle whose resource pointer is already null (the shape
`Ref::Release` leaves in the doomed temporary): the strong count is
decremented, no deleter ever runs, and the block is freed exactly when the
decrement reaches zero with no weak references. -/
theorem decRef_nullPtr_spec (D : Option Nat) (b : Nat) (h : Heap)
    (c : AtomicRefCount) (hf : h.findBlock b = some c) :
    Handle._DecRef ⟨0, some b, D⟩ h =
      if (c.strongs + (U32 - 1)) % U32 = 0 then
        if c.weaks = 0
        then (⟨0, none, D⟩, (h.updBlock b (fun x => { x with strongs := 0 })).free b)
        else (⟨0, some b, D⟩, h.updBlock b (fun x => { x with strongs := 0 }))
      else (⟨0, some b, D⟩,
        h.updBlock b (fun x => { x with strongs := (c.strongs + (U32 - 1)) % U32 })) := by
  by_cases hn : (c.strongs + (U32 - 1)) % U32 = 0
  · have hW : Handle._WeakRefCount ⟨0, some b, D⟩
        (h.updBlock b (fun x => { x with strongs := 0 })) = c.weaks := by
      simp only [Handle._WeakRefCount, findBlock_updBlock, if_pos rfl, hf]
      rfl
    simp only [Handle._DecRef, hf, AtomicRefCount.DecRef, hn, if_pos rfl,
      eq_self_iff_true, if_true, hW]
  · simp only [Handle._DecRef, hf, AtomicRefCount.DecRef, if_neg hn]

/-- C5 counterexample: the claim says `Ref::Release` detaches without
decrementing the strong count and never deallocates the control block
itself.  On a handle sharing a block with strong count 2, the count observed
after `Release` is 1, not 2, and on a unique handle (count 1, no weak
references) `Release` deallocates the block. -/
theorem C5_release_counterexample :
    ¬ (((RefAPI.Release ⟨5, some 0, some 7⟩
          ⟨[(0, ⟨2, 0⟩)], 1, [], []⟩).2.2.findBlock 0).map AtomicRefCount.GetStrongs =
        some 2 ∧
       ¬ (RefAPI.Release ⟨5, some 0, some 7⟩
          ⟨[(0, ⟨1, 0⟩)], 1, [], []⟩).2.2.findBlock 0 = none) := by
  decide

/-- C5 (amended): `Ref::Release` returns the stored raw pointer and leaves
the handle empty, and it never invokes the deleter (the pointer is detached
before the internal cleanup); but — because the null temporary in
`Ref(nullptr).Swap(*this)` walks away with the old control block and is then
destroyed — it decrements the strong count exactly like a destruction: with
other owners alive the count drops by one; as the last owner it drives the
count to zero and deallocates the control block when no weak references
remain (or leaves the expired block for observers otherwise). -/
theorem C5_release_decrements (hd : Handle) (h : Heap) (b : Nat)
    (c : AtomicRefCount)
    (hrc : hd.refCount = some b) (hf : h.findBlock b = some c)
    (hsU : c.strongs < U32) :
    (RefAPI.Release hd h).1 = hd.ptr ∧
    (RefAPI.Release hd h).2.1 = Handle.null ∧
    (RefAPI.Release hd h).2.2.deletions = h.deletions ∧
    (2 ≤ c.strongs →
      (RefAPI.Release hd h).2.2 =
        h.updBlock b (fun x => { x with strongs := c.strongs - 1 })) ∧
    (c.strongs = 1 →
      (c.weaks = 0 → (RefAPI.Release hd h).2.2.findBlock b = none) ∧
      (¬ c.weaks = 0 →
        (RefAPI.Release hd h).2.2 =
          h.updBlock b (fun x => { x with strongs := 0 }))) := by
  obtain ⟨P, R, D⟩ := hd
  simp only [Handle.refCount] at hrc
  subst hrc
  have hspec := decRef_nullPtr_spec D b h c hf
  simp only [RefAPI.Release, Handle._Swap]
  rw [hspec]
  refine ⟨trivial, trivial, ?_, ?_, ?_⟩
  · by_cases hn : (c.strongs + (U32 - 1)) % U32 = 0
    · rw [if_pos hn]
      by_cases hw : c.weaks = 0
      · rw [if_pos hw]
        simp [Heap.free, Heap.updBlock]
      · rw [if_neg hw]
        simp [Heap.updBlock]
    · rw [if_neg hn]
      simp [Heap.updBlock]
  · intro h2
    have hdec := decWrap_eq c.strongs hsU
    rw [if_neg (by omega : ¬ c.strongs = 0)] at hdec
    rw [if_neg (by rw [hdec]; omega), hdec]
  · intro h1
    have hn : (c.strongs + (U32 - 1)) % U32 = 0 := by
      rw [h1]; norm_num [U32]
    rw [if_pos hn]
    constructor
    · intro hw
      rw [if_pos hw]
      rw [findBlock_free, if_pos rfl]
    · intro hw
      rw [if_neg hw]

theorem C5_release_decrements_witness :
    (RefAPI.Release ⟨5, some 0, some 7⟩ ⟨[(0, ⟨2, 0⟩)], 1, [], []⟩).2.2 =
      ⟨[(0, ⟨1, 0⟩)], 1, [], []⟩ := by
  rw [(C5_release_decrements ⟨5, some 0, some 7⟩ ⟨[(0, ⟨2, 0⟩)], 1, [], []⟩ 0 ⟨2, 0⟩
    rfl (by decide) (by decide)).2.2.2.1 (by decide)]
  decide

/-- C6: the copy overload of `DynamicRefCast` when the `dynamic_cast`
pointer conversion fails (yields the null pointer): the returned handle has
a null resource pointer but still shares the source's control block and
deleter, the strong count is incremented by exactly one, and no deleter runs
and no block is freed — the original resource stays pinned alive until the
returned handle is destroyed. -/
theorem C6_dynamic_cast_failure_pins (cast : Nat → Nat) (ref : Handle) (h : Heap)
    (b : Nat) (c : AtomicRefCount)
    (hcast : cast (RefAPI.Raw ref) = 0)
    (hrc : ref.refCount = some b) (hf : h.findBlock b = some c)
    (hinc : c.strongs + 1 < U32) :
    DynamicRefCast cast ref h =
      (⟨0, some b, ref.deleter⟩,
       h.updBlock b (fun x => { x with strongs := c.strongs + 1 })) ∧
    (DynamicRefCast cast ref h).2.deletions = h.deletions ∧
    (DynamicRefCast cast ref h).2.freed = h.freed := by
  have hmain : DynamicRefCast cast ref h =
      (⟨0, some b, ref.deleter⟩,
       h.updBlock b (fun x => { x with strongs := c.strongs + 1 })) := by
    rw [DynamicRefCast, hcast]
    simp only [Handle._AliasConstructFrom, hrc, Handle._IncRef, hf,
      AtomicRefCount.IncRef, incWrap_eq c.strongs hinc]
  exact ⟨hmain, by rw [hmain]; simp [Heap.updBlock], by rw [hmain]; simp [Heap.updBlock]⟩

theorem C6_dynamic_cast_failure_pins_witness :
    DynamicRefCast (fun _ => 0) ⟨5, some 0, some 7⟩ ⟨[(0, ⟨1, 0⟩)], 1, [], []⟩ =
      (⟨0, some 0, some 7⟩, ⟨[(0, ⟨2, 0⟩)], 1, [], []⟩) := by
  rw [(C6_dynamic_cast_failure_pins (fun _ => 0) ⟨5, some 0, some 7⟩
    ⟨[(0, ⟨1, 0⟩)], 1, [], []⟩ 0 ⟨1, 0⟩ rfl rfl (by decide) (by decide)).1]
  decide

/-- C7: moving a `Scope` leaves the source empty — null pointer and null
deleter — and destroying both the moved-from source and the destination, in
either order, invokes the deleter at most once on the resource (the combined
effect equals destroying the original handle once, which appends at most one
entry to the deletion log). -/
theorem C7_scope_move_no_double_delete (src : Scope) (log : List (Nat × Nat)) :
    (Scope.moveConstruct src).2 = ⟨0, none⟩ ∧
    (Scope.destruct (Scope.moveConstruct src).1
        ((Scope.destruct (Scope.moveConstruct src).2 log).2)).2 =
      (Scope.destruct src log).2 ∧
    (Scope.destruct (Scope.moveConstruct src).2
        ((Scope.destruct (Scope.moveConstruct src).1 log).2)).2 =
      (Scope.destruct src log).2 ∧
    (Scope.destruct src log).2.length ≤ log.length + 1 := by
  obtain ⟨p, d⟩ := src
  by_cases hp : p = 0
  · subst hp
    cases d <;> simp [Scope.moveConstruct, Scope.Release, Scope.destruct]
  · cases d <;>
      simp [Scope.moveConstruct, Scope.Release, Scope.destruct, hp]

/-- C8: equality and ordering of shared handles compare only the stored raw
addresses (`left.Raw() == right.Raw()`, `left.Raw() < right.Raw()`): two
handles compare equal exactly when their raw pointers are equal, so handles
with different control blocks but the same stored address compare equal. -/
theorem C8_comparison_by_address (a b : Handle) :
    (refEq a b = true ↔ RefAPI.Raw a = RefAPI.Raw b) ∧
    (¬ a.refCount = b.refCount → a.ptr = b.ptr → refEq a b = true) ∧
    (refLt a b = true ↔ RefAPI.Raw a < RefAPI.Raw b) ∧
    (refNe a b = true ↔ ¬ refEq a b = true) := by
  refine ⟨?_, ?_, ?_, ?_⟩ <;>
    simp [refEq, refNe, refLt, RefAPI.Raw, Handle._Raw]

theorem C8_comparison_by_address_witness :
    refEq ⟨5, some 0, none⟩ ⟨5, some 1, none⟩ = true :=
  (C8_comparison_by_address ⟨5, some 0, none⟩ ⟨5, some 1, none⟩).2.1
    (by decide) rfl

/-- C9: constructing a `Ref` from a null raw pointer allocates no control
block and captures no deleter — the handle is `(nullptr, nullptr, nullptr)`
and the heap is untouched; such a handle reports `RefCount() = 0`, is not
`Valid()`, compares equal to `nullptr`, and its destruction (`_DecRef`)
changes nothing: no decrement, no deletion, no deallocation. -/
theorem C9_null_pointer_construction (d : Nat) (h : Heap) :
    Handle._ConstructFromRaw 0 d h = (⟨0, none, none⟩, h) ∧
    (∀ h2 : Heap, RefAPI.RefCount (⟨0, none, none⟩ : Handle) h2 = 0) ∧
    RefAPI.Valid (⟨0, none, none⟩ : Handle) = false ∧
    refEqNullptr (⟨0, none, none⟩ : Handle) = true ∧
    (∀ h2 : Heap, Handle._DecRef ⟨0, none, none⟩ h2 = (⟨0, none, none⟩, h2)) := by
  refine ⟨?_, fun h2 => rfl, by decide, by decide, fun h2 => rfl⟩
  simp [Handle._ConstructFromRaw]

/-- C10: an `UnsafeRef` is a pure view: constructing it from a `Ref` copies
the three fields and leaves the heap — both counts of the shared control
block — unchanged, and its defaulted destructor changes nothing either; the
counts move only through its explicit `IncRef` / `DecRef` / `IncWeakRef` /
`DecWeakRef` calls, which are exactly the `_RefBase` operations (`Swap` and
the count accessors touch no heap state at all). -/
theorem C10_unsaferef_frame (src hd a b : Handle) (h : Heap) :
    (UnsafeRefAPI.construct src h).2 = h ∧
    (UnsafeRefAPI.construct src h).1 = ⟨src.ptr, src.refCount, src.deleter⟩ ∧
    UnsafeRefAPI.destruct hd h = (hd, h) ∧
    UnsafeRefAPI.Swap a b = (b, a) ∧
    UnsafeRefAPI.IncRef hd h = hd._IncRef h ∧
    UnsafeRefAPI.DecRef hd h = Handle._DecRef hd h ∧
    UnsafeRefAPI.IncWeakRef hd h = hd._IncWeakRef h ∧
    UnsafeRefAPI.DecWeakRef hd h = Handle._DecWeakRef hd h :=
  ⟨rfl, rfl, rfl, rfl, rfl, rfl, rfl, rfl⟩
